import Mathlib

/-!
Verification of the audio-analysis core of fourrier-rs.

The Rust sources are shallowly embedded as follows.

* Machine floating point (f32/f64) is modelled by exact rational
  arithmetic over ℚ; transcendental operations used by the
  spectrogram path (cosine, base-10 logarithm, complex norm) and the
  float approximation of π are abstracted as explicit function
  parameters, since the claims under study concern control flow,
  shapes and the exact arithmetic formulas, not rounding behaviour.
* The symphonia decoding backend is modelled by the sequence of
  results the code observes from it: each call to next_packet either
  yields a packet (whose decode step either yields a decoded buffer
  of one of the ten supported encodings, or fails) or fails itself.
* Rust panics (usize subtraction overflow, division by zero,
  Option::unwrap on None, out-of-bounds slicing) are modelled by a
  dedicated outcome (Option.none, or the crash constructor below),
  distinguished from an ordinary returned error.
-/

/-- Decoded PCM buffer: src/src/audio/mod.rs, struct AudioData.
samples holds channel 0 only; sample_rate is the stream's native rate. -/
structure AudioData where
  samples : List ℚ
  sample_rate : ℕ
deriving DecidableEq

/-- Spectrogram: src/src/audio/mod.rs, struct SpectrogramData. -/
structure SpectrogramData where
  time_points : List ℚ
  frequencies : List ℚ
  magnitudes : List (List ℚ)
deriving DecidableEq

/-- One decoded packet as seen by the match in load_audio
(src/src/audio/mod.rs lines 42-79): the ten AudioBufferRef variants of
the decoding backend, each carrying the samples of channel 0.
For u24 the code reads x.inner() as u32, for s24 x.inner() as i32,
so the carriers are plain naturals and integers here. -/
inductive DecodedPacket
  | f32 (chan0 : List ℚ)
  | f64 (chan0 : List ℚ)
  | u8 (chan0 : List ℕ)
  | u16 (chan0 : List ℕ)
  | u24 (chan0 : List ℕ)
  | u32 (chan0 : List ℕ)
  | s8 (chan0 : List ℤ)
  | s16 (chan0 : List ℤ)
  | s24 (chan0 : List ℤ)
  | s32 (chan0 : List ℤ)
deriving DecidableEq

/-- Per-packet sample conversion of load_audio
(src/src/audio/mod.rs lines 42-79), one equation per match arm.
The f64 arm is the narrowing cast x as f32, the identity in this
exact-arithmetic model. -/
def convert_packet : DecodedPacket → List ℚ
  | .f32 xs => xs
  | .f64 xs => xs
  | .u8 xs => xs.map (fun x => (x : ℚ) / 128 - 1)
  | .u16 xs => xs.map (fun x => (x : ℚ) / 32768 - 1)
  | .u24 xs => xs.map (fun x => (x : ℚ) / 8388608 - 1)
  | .u32 xs => xs.map (fun x => (x : ℚ) / 2147483648 - 1)
  | .s8 xs => xs.map (fun x => (x : ℚ) / 128)
  | .s16 xs => xs.map (fun x => (x : ℚ) / 32768)
  | .s24 xs => xs.map (fun x => (x : ℚ) / 8388608)
  | .s32 xs => xs.map (fun x => (x : ℚ) / 2147483648)

/-- Normalization table as written in the specification (section 4.1):
32-bit float passthrough, 64-bit float narrowed, unsigned n-bit mapped
by x over half-range minus one, signed n-bit by x over half-range.
Stated independently of convert_packet so that the two can be compared. -/
def spec_normalization_table : DecodedPacket → List ℚ
  | .f32 xs => xs
  | .f64 xs => xs
  | .u8 xs => xs.map (fun x => (x : ℚ) / 128 - 1)
  | .u16 xs => xs.map (fun x => (x : ℚ) / 32768 - 1)
  | .u24 xs => xs.map (fun x => (x : ℚ) / 8388608 - 1)
  | .u32 xs => xs.map (fun x => (x : ℚ) / 2147483648 - 1)
  | .s8 xs => xs.map (fun x => (x : ℚ) / 128)
  | .s16 xs => xs.map (fun x => (x : ℚ) / 32768)
  | .s24 xs => xs.map (fun x => (x : ℚ) / 8388608)
  | .s32 xs => xs.map (fun x => (x : ℚ) / 2147483648)

/-- One observed iteration of the packet loop: a call to
format.next_packet() either succeeds with a packet, whose subsequent
decoder.decode either yields a decoded buffer or fails, or
next_packet itself fails (which the while-let loop treats as the end
of the stream, whatever the cause). -/
inductive PacketRead
  | success (decoded : Except Unit DecodedPacket)
  | failure

/-- The packet loop of load_audio (src/src/audio/mod.rs lines 40-80):
while let Ok(packet) = format.next_packet() ends the loop on any
next_packet failure and returns the samples accumulated so far;
a decode failure propagates immediately through the question-mark
operator, discarding the accumulator. -/
def decode_loop : List PacketRead → List ℚ → Except Unit (List ℚ)
  | [], acc => Except.ok acc
  | PacketRead.failure :: _, acc => Except.ok acc
  | PacketRead.success (Except.error e) :: _, _ => Except.error e
  | PacketRead.success (Except.ok p) :: rest, acc =>
      decode_loop rest (acc ++ convert_packet p)

/-- The information load_audio reads off the selected track:
codec_params.sample_rate (an Option the code unwraps) and whether
make(codec_params) succeeds in building a decoder. -/
structure TrackInfo where
  sample_rate : Option ℕ
  decoder_available : Bool
deriving DecidableEq

/-- Result of running load_audio: crash models a Rust panic
(Option::unwrap on None), err a returned Err, ok a returned buffer. -/
inductive LoadOutcome
  | crash
  | err
  | ok (audio : AudioData)
deriving DecidableEq

/-- load_audio (src/src/audio/mod.rs lines 23-86) after probing:
line 34 unwraps format.default_track() (panic when the container has
no default track), line 35 builds the decoder with the
question-mark operator (an Err return when unavailable), line 38
unwraps codec_params.sample_rate, then the packet loop runs. -/
def load_audio (default_track : Option TrackInfo) (reads : List PacketRead) : LoadOutcome :=
  match default_track with
  | none => LoadOutcome.crash
  | some track =>
    if track.decoder_available then
      match track.sample_rate with
      | none => LoadOutcome.crash
      | some rate =>
        match decode_loop reads [] with
        | Except.error _ => LoadOutcome.err
        | Except.ok samples => LoadOutcome.ok { samples := samples, sample_rate := rate }
    else LoadOutcome.err

/-- Per-packet conversion of the recognition path
(src/src/speech/mod.rs lines 44-70): same table as load_audio except
that the arms for F64, U24 and S24 are absent and fall to the
wildcard arm, which skips the packet (contributes no samples). -/
def convert_packet_for_whisper : DecodedPacket → List ℚ
  | .f32 xs => xs
  | .u8 xs => xs.map (fun x => (x : ℚ) / 128 - 1)
  | .u16 xs => xs.map (fun x => (x : ℚ) / 32768 - 1)
  | .u32 xs => xs.map (fun x => (x : ℚ) / 2147483648 - 1)
  | .s8 xs => xs.map (fun x => (x : ℚ) / 128)
  | .s16 xs => xs.map (fun x => (x : ℚ) / 32768)
  | .s32 xs => xs.map (fun x => (x : ℚ) / 2147483648)
  | _ => []

/-- The packet loop of load_audio_for_whisper
(src/src/speech/mod.rs lines 42-71), same loop structure as
decode_loop but with the skipping conversion. -/
def whisper_decode_loop : List PacketRead → List ℚ → Except Unit (List ℚ)
  | [], acc => Except.ok acc
  | PacketRead.failure :: _, acc => Except.ok acc
  | PacketRead.success (Except.error e) :: _, _ => Except.error e
  | PacketRead.success (Except.ok p) :: rest, acc =>
      whisper_decode_loop rest (acc ++ convert_packet_for_whisper p)

/-- Peak normalization of load_audio_for_whisper
(src/src/speech/mod.rs lines 83-90): fold 0.0 with max of absolute
values, divide every sample by the result only when it exceeds 1. -/
def normalize_samples (samples : List ℚ) : List ℚ :=
  let max_abs := samples.foldl (fun a b => max a |b|) 0
  if 1 < max_abs then samples.map (fun s => s / max_abs) else samples

/-- Resampling step of load_audio_for_whisper
(src/src/speech/mod.rs lines 92-107): skipped entirely when the
source rate is already 16000; otherwise nearest-source-index mapping
with target length the floor of len times 16000 over rate, each
output index i reading the source at the floor of i over the ratio,
guarded by an in-bounds check that drops the sample otherwise
(the push-into-a-vector loop is rendered as filterMap over the
range of output indices; as usize truncates nonnegative values
toward zero, which is the floor). -/
def resample (samples : List ℚ) (sample_rate : ℕ) : List ℚ :=
  if sample_rate = 16000 then samples
  else
    (List.range ((⌊(samples.length : ℚ) * (16000 / (sample_rate : ℚ))⌋).toNat)).filterMap
      (fun i : ℕ => samples[((⌊(i : ℚ) / (16000 / (sample_rate : ℚ))⌋).toNat)]?)

/-- Result of load_audio_for_whisper: crash models the unwrap panic
on a missing default track, err a returned Err. -/
inductive WhisperLoad
  | crash
  | err
  | ok (samples : List ℚ)
deriving DecidableEq

/-- load_audio_for_whisper (src/src/speech/mod.rs lines 18-110):
unwrap of default_track (panic on None), sample_rate read with
unwrap_or(16000), decoder construction with the question-mark
operator, the skipping packet loop, then peak normalization followed
by resampling. -/
def load_audio_for_whisper (default_track : Option TrackInfo) (reads : List PacketRead) :
    WhisperLoad :=
  match default_track with
  | none => WhisperLoad.crash
  | some track =>
    if track.decoder_available then
      match whisper_decode_loop reads [] with
      | Except.error _ => WhisperLoad.err
      | Except.ok samples =>
          WhisperLoad.ok (resample (normalize_samples samples) (track.sample_rate.getD 16000))
    else WhisperLoad.err

/-- Hann window (src/src/audio/mod.rs lines 130-134), with the float
cosine and the float constant π taken as parameters. -/
def hann_window (cosq : ℚ → ℚ) (piq : ℚ) (size : ℕ) : List ℚ :=
  (List.range size).map
    (fun i : ℕ => 1 / 2 * (1 - cosq (2 * piq * (i : ℚ) / ((size - 1 : ℕ) : ℚ))))

/-- compute_spectrogram (src/src/audio/mod.rs lines 88-128).

The fft parameter stands for plan_fft_forward(window_size).process,
an in-place transform (so it preserves the length of its buffer, a
fact taken as a hypothesis where needed); log10q and normq stand for
the float log10 and complex norm.

The none result models a Rust panic: line 93 computes
samples.len() - window_size on usize, which underflows when the
buffer is shorter than the window (a debug-mode panic; in release
mode the wrapped frame count makes the first slice at line 102 read
out of bounds, also a panic), and divides by hop_size = window_size/2,
which is a division by zero for window sizes below 2.  For
window_size ≥ 2 and samples.len() ≥ window_size every slice is in
bounds and the function returns Ok; note it has no error return at
all. -/
def compute_spectrogram (fft : List (ℚ × ℚ) → List (ℚ × ℚ)) (cosq log10q : ℚ → ℚ)
    (normq : ℚ × ℚ → ℚ) (piq : ℚ) (audio : AudioData) (window_size : ℕ) :
    Option SpectrogramData :=
  if window_size / 2 = 0 ∨ audio.samples.length < window_size then
    none
  else
    some
      { time_points :=
          (List.range ((audio.samples.length - window_size) / (window_size / 2))).map
            (fun frame_idx =>
              ((frame_idx * (window_size / 2) : ℕ) : ℚ) / (audio.sample_rate : ℚ)),
        frequencies :=
          (List.range (window_size / 2)).map
            (fun i : ℕ => (i : ℚ) * (audio.sample_rate : ℚ) / (window_size : ℚ)),
        magnitudes :=
          (List.range ((audio.samples.length - window_size) / (window_size / 2))).map
            (fun frame_idx =>
              ((fft ((((audio.samples.drop (frame_idx * (window_size / 2))).take
                  window_size).zip (hann_window cosq piq window_size)).map
                  (fun sw => (sw.1 * sw.2, (0 : ℚ))))).take (window_size / 2)).map
                (fun c => log10q (normq c / (window_size : ℚ)) * 20)) }

/-- A concrete four-sample buffer at rate 8, used to instantiate
theorems with hypotheses on concrete inputs. -/
def exampleAudio : AudioData := { samples := [0, 0, 0, 0], sample_rate := 8 }

/-- The spectrogram of exampleAudio at window size 2 when every
abstracted float operation is the constant 0 and the transform is the
identity. -/
def exampleSpectrogram : SpectrogramData :=
  { time_points := [0, 1 / 8], frequencies := [0], magnitudes := [[0], [0]] }

/-- The spectrogram of exampleAudio at window size 4 under the same
instantiation: zero frames, two frequency bins. -/
def exampleSpectrogram4 : SpectrogramData :=
  { time_points := [], frequencies := [0, 2], magnitudes := [] }

/-- A filterMap whose function succeeds on every element of the list
is a map. -/
theorem filterMap_eq_map_of_forall_some {α β : Type} (l : List α) (f : α → Option β)
    (g : α → β) (h : ∀ a ∈ l, f a = some (g a)) : l.filterMap f = l.map g := by
  induction l with
  | nil => rfl
  | cons hd tl ih =>
    rw [List.filterMap_cons, h hd (List.mem_cons_self hd tl), List.map_cons,
      ih (fun a ha => h a (List.mem_cons_of_mem hd ha))]

/-- Every frame selected by compute_spectrogram lies inside the
sample buffer: the k-th frame starts at k·(W/2) and, for k below the
frame count (len−W)/(W/2), ends no later than len. -/
theorem frame_slice_bound (len W k : ℕ) (hlen : W ≤ len)
    (hk : k < (len - W) / (W / 2)) : k * (W / 2) + W ≤ len := by
  have h1 : (k + 1) * (W / 2) ≤ ((len - W) / (W / 2)) * (W / 2) :=
    Nat.mul_le_mul_right _ hk
  have h2 : ((len - W) / (W / 2)) * (W / 2) ≤ len - W := Nat.div_mul_le_self _ _
  have h3 : k * (W / 2) ≤ len - W := by
    have h4 : k * (W / 2) ≤ (k + 1) * (W / 2) :=
      Nat.mul_le_mul_right _ (Nat.le_succ k)
    exact le_trans h4 (le_trans h1 h2)
  have h5 : k * (W / 2) + W ≤ (len - W) + W := Nat.add_le_add_right h3 W
  rwa [Nat.sub_add_cancel hlen] at h5

/-- The running maximum in the peak-normalization fold never drops
below its seed. -/
theorem le_foldl_absmax (l : List ℚ) (a : ℚ) :
    a ≤ l.foldl (fun x b => max x |b|) a := by
  induction l generalizing a with
  | nil => exact le_refl a
  | cons hd tl ih => exact le_trans (le_max_left a |hd|) (ih (max a |hd|))

/-- The peak-normalization fold dominates the absolute value of every
list element. -/
theorem mem_le_foldl_absmax (l : List ℚ) :
    ∀ (a x : ℚ), x ∈ l → |x| ≤ l.foldl (fun y b => max y |b|) a := by
  induction l with
  | nil => intro a x hx; cases hx
  | cons hd tl ih =>
    intro a x hx
    rcases List.mem_cons.mp hx with h | h
    · subst h
      exact le_trans (le_max_right a |x|) (le_foldl_absmax tl (max a |x|))
    · exact ih (max a |hd|) x h

/-- The peak-normalization fold returns either its seed or the
absolute value of some list element. -/
theorem foldl_absmax_cases (l : List ℚ) (a : ℚ) :
    l.foldl (fun x b => max x |b|) a = a ∨
      ∃ x ∈ l, l.foldl (fun y b => max y |b|) a = |x| := by
  induction l generalizing a with
  | nil => exact Or.inl rfl
  | cons hd tl ih =>
    rcases ih (max a |hd|) with h | ⟨x, hx, hfx⟩
    · rcases max_choice a |hd| with hm | hm
      · exact Or.inl (by rw [List.foldl_cons, h, hm])
      · exact Or.inr ⟨hd, List.mem_cons_self hd tl, by rw [List.foldl_cons, h, hm]⟩
    · exact Or.inr ⟨x, List.mem_cons_of_mem hd hx, by rw [List.foldl_cons]; exact hfx⟩

/-- Running the load_audio packet loop over a block of successfully
decoded packets appends their conversions, in stream order, to the
accumulator before the rest of the stream is considered. -/
theorem decode_loop_ok_packets (ps : List DecodedPacket) (rest : List PacketRead)
    (acc : List ℚ) :
    decode_loop (ps.map (fun p => PacketRead.success (Except.ok p)) ++ rest) acc =
      decode_loop rest (acc ++ (ps.map convert_packet).flatten) := by
  induction ps generalizing acc with
  | nil => simp
  | cons hd tl ih =>
    calc decode_loop ((hd :: tl).map (fun p => PacketRead.success (Except.ok p)) ++ rest) acc
        = decode_loop (tl.map (fun p => PacketRead.success (Except.ok p)) ++ rest)
            (acc ++ convert_packet hd) := rfl
      _ = decode_loop rest ((acc ++ convert_packet hd) ++ (tl.map convert_packet).flatten) :=
            ih (acc ++ convert_packet hd)
      _ = decode_loop rest (acc ++ ((hd :: tl).map convert_packet).flatten) := by
            rw [List.map_cons, List.flatten_cons, List.append_assoc]

/-- A packet whose recognition-path conversion is empty can be removed
from the stream without changing the result of the whisper packet
loop. -/
theorem whisper_loop_skip (p : DecodedPacket) (hp : convert_packet_for_whisper p = [])
    (pre post : List PacketRead) (acc : List ℚ) :
    whisper_decode_loop (pre ++ PacketRead.success (Except.ok p) :: post) acc =
      whisper_decode_loop (pre ++ post) acc := by
  induction pre generalizing acc with
  | nil => simp [whisper_decode_loop, hp]
  | cons e pre ih =>
    cases e with
    | failure => simp [whisper_decode_loop]
    | success d =>
      cases d with
      | error e => simp [whisper_decode_loop]
      | ok q =>
        simp only [List.cons_append, whisper_decode_loop]
        exact ih _

/-- Claim C1. The claim says a buffer shorter than the window yields
zero frames or an InsufficientSamples error and never a crash; the
code instead panics there (usize underflow of samples.len() −
window_size at src/src/audio/mod.rs line 93, or the resulting
out-of-bounds slice in release mode), which this model renders as
none: the spec states the intended behaviour, the code is a bug. -/
theorem compute_spectrogram_short_buffer (fft : List (ℚ × ℚ) → List (ℚ × ℚ))
    (cosq log10q : ℚ → ℚ) (normq : ℚ × ℚ → ℚ) (piq : ℚ) (audio : AudioData)
    (window_size : ℕ) (h : audio.samples.length < window_size) :
    compute_spectrogram fft cosq log10q normq piq audio window_size = none := by
  rw [compute_spectrogram, if_pos (Or.inr h)]

/-- Claim C1, witness: the empty buffer with the default window size
1024 hits the panic branch. -/
theorem compute_spectrogram_short_buffer_witness :
    compute_spectrogram id (fun q => q) (fun q => q) (fun c => c.1) 0
      { samples := [], sample_rate := 16000 } 1024 = none :=
  compute_spectrogram_short_buffer id (fun q => q) (fun q => q) (fun c => c.1) 0
    { samples := [], sample_rate := 16000 } 1024 (by decide)

/-- Claim C8. The claim says a container with no decodable audio
track makes load_audio return a typed NoAudioTrack error rather than
crash; the code instead calls format.default_track().unwrap()
(src/src/audio/mod.rs line 34), a panic when the probe found no
default track — and no NoAudioTrack error type exists anywhere in the
code.  This theorem evaluates the model at that failing input:
whatever the packet stream holds, the outcome is the crash, not a
returned error. -/
theorem load_audio_no_track_crashes (reads : List PacketRead) :
    load_audio none reads = LoadOutcome.crash := rfl

/-- Claim C2. With a decodable track of any rate and a stream of
successfully decoded packets, load_audio returns exactly the
concatenation, in stream order, of the per-packet conversions given
by the specification's normalization table (32-bit float passthrough,
64-bit float narrowed, unsigned 8/16/24/32 as x over half-range minus
one, signed 8/16/24/32 as x over half-range), applied to channel 0 of
each packet. -/
theorem load_audio_normalization_table (rate : ℕ) (packets : List DecodedPacket) :
    load_audio (some { sample_rate := some rate, decoder_available := true })
        (packets.map (fun p => PacketRead.success (Except.ok p))) =
      LoadOutcome.ok
        { samples := (packets.map spec_normalization_table).flatten, sample_rate := rate } := by
  have hconv : convert_packet = spec_normalization_table := by
    funext p; cases p <;> rfl
  have h := decode_loop_ok_packets packets [] []
  rw [List.append_nil, List.nil_append] at h
  simp only [load_audio, if_pos rfl, h, hconv]
  rfl

/-- Claim C7, counterexample. The claim says a mid-stream failure
while reading the stream never yields a truncated buffer as a
successful result.  But the while-let loop of load_audio
(src/src/audio/mod.rs line 40) treats every next_packet failure as
end of stream: with a packet decoding to sample 1/2, then a read
failure, then a further decodable packet, load_audio succeeds with
only the first packet's sample, a truncated buffer, whereas the same
stream without the read failure yields both samples. -/
theorem mid_stream_read_failure_truncates :
    load_audio (some { sample_rate := some 44100, decoder_available := true })
        [PacketRead.success (Except.ok (DecodedPacket.s16 [16384])), PacketRead.failure,
         PacketRead.success (Except.ok (DecodedPacket.s16 [8192]))] =
      LoadOutcome.ok { samples := [1 / 2], sample_rate := 44100 } ∧
    load_audio (some { sample_rate := some 44100, decoder_available := true })
        [PacketRead.success (Except.ok (DecodedPacket.s16 [16384])),
         PacketRead.success (Except.ok (DecodedPacket.s16 [8192]))] =
      LoadOutcome.ok { samples := [1 / 2, 1 / 4], sample_rate := 44100 } := by
  constructor <;> norm_num [load_audio, decode_loop, convert_packet]

/-- Claim C7 as amended: a packet decode failure, after any number N
of successfully decoded packets, makes load_audio return an error and
discards the N packets' samples (no partial buffer accompanies the
error); a failure of next_packet itself, however, ends decoding and
returns the samples accumulated so far as a successful — possibly
truncated — result. -/
theorem decode_error_discards_partial (rate : ℕ) (good : List DecodedPacket)
    (rest : List PacketRead) :
    load_audio (some { sample_rate := some rate, decoder_available := true })
        (good.map (fun p => PacketRead.success (Except.ok p)) ++
          PacketRead.success (Except.error ()) :: rest) =
      LoadOutcome.err ∧
    load_audio (some { sample_rate := some rate, decoder_available := true })
        (good.map (fun p => PacketRead.success (Except.ok p)) ++
          PacketRead.failure :: rest) =
      LoadOutcome.ok
        { samples := (good.map convert_packet).flatten, sample_rate := rate } := by
  constructor <;>
    simp only [load_audio, decode_loop_ok_packets, decode_loop, List.nil_append,
      eq_self_iff_true, if_true]

/-- Claim C10. In the recognition path's packet loop
(src/src/speech/mod.rs lines 42-71), a decoded packet of 64-bit
float, unsigned 24-bit or signed 24-bit encoding falls to the
wildcard arm and is silently skipped: wherever it sits in the stream
it contributes no samples and the loop behaves exactly as if the
packet were absent — it is neither converted nor an error. -/
theorem whisper_skips_unsupported_formats (pre post : List PacketRead) (acc : List ℚ)
    (xs : List ℚ) (ys : List ℕ) (zs : List ℤ) :
    whisper_decode_loop
        (pre ++ PacketRead.success (Except.ok (DecodedPacket.f64 xs)) :: post) acc =
      whisper_decode_loop (pre ++ post) acc ∧
    whisper_decode_loop
        (pre ++ PacketRead.success (Except.ok (DecodedPacket.u24 ys)) :: post) acc =
      whisper_decode_loop (pre ++ post) acc ∧
    whisper_decode_loop
        (pre ++ PacketRead.success (Except.ok (DecodedPacket.s24 zs)) :: post) acc =
      whisper_decode_loop (pre ++ post) acc :=
  ⟨whisper_loop_skip (DecodedPacket.f64 xs) rfl pre post acc,
   whisper_loop_skip (DecodedPacket.u24 ys) rfl pre post acc,
   whisper_loop_skip (DecodedPacket.s24 zs) rfl pre post acc⟩

/-- Claim C5. The recognition path's peak normalization: the fold at
src/src/speech/mod.rs line 84 computes the maximum absolute value of
the buffer (it dominates every sample, and when it exceeds 1 it is
attained by some sample); when that maximum exceeds 1 every sample is
divided by it, and otherwise the buffer is returned unchanged. -/
theorem peak_normalization (samples : List ℚ) :
    (∀ s ∈ samples, |s| ≤ samples.foldl (fun a b => max a |b|) 0) ∧
    (1 < samples.foldl (fun a b => max a |b|) 0 →
      (samples.foldl (fun a b => max a |b|) 0) ∈ samples.map (fun s => |s|) ∧
      normalize_samples samples =
        samples.map (fun s => s / samples.foldl (fun a b => max a |b|) 0)) ∧
    (samples.foldl (fun a b => max a |b|) 0 ≤ 1 →
      normalize_samples samples = samples) := by
  refine ⟨fun s hs => mem_le_foldl_absmax samples 0 s hs, fun h1 => ⟨?_, ?_⟩, fun h1 => ?_⟩
  · rcases foldl_absmax_cases samples 0 with h | ⟨x, hx, hfx⟩
    · rw [h] at h1; exact absurd h1 (by norm_num)
    · exact List.mem_map.mpr ⟨x, hx, hfx.symm⟩
  · simp only [normalize_samples]
    rw [if_pos h1]
  · simp only [normalize_samples]
    rw [if_neg (not_lt.mpr h1)]

/-- Claim C5, witness: a buffer with maximum absolute value 2 is
scaled by exactly one half. -/
theorem peak_normalization_witness :
    normalize_samples [(2 : ℚ), -1] = [1, -(1 / 2)] := by
  have h := ((peak_normalization [(2 : ℚ), -1]).2.1 (by norm_num)).2
  rw [h]
  norm_num

/-- Claim C3. The resampling step of the recognition path: with
source rate equal to the 16000 Hz target it is a no-op; otherwise,
writing r for 16000/rate and new_len for the floor of len·r, the
output has exactly new_len samples and output sample i is the source
sample at index the floor of i/r — an index the in-bounds guard
always finds below len in exact arithmetic (the guard exists in the
code for float rounding at the tail and drops any out-of-range
index). -/
theorem resample_nearest_index (samples : List ℚ) (rate : ℕ) (hrate : 0 < rate) :
    (rate = 16000 → resample samples rate = samples) ∧
    (rate ≠ 16000 →
      (resample samples rate).length =
        (⌊(samples.length : ℚ) * (16000 / (rate : ℚ))⌋).toNat ∧
      ∀ i, i < (⌊(samples.length : ℚ) * (16000 / (rate : ℚ))⌋).toNat →
        (⌊(i : ℚ) / (16000 / (rate : ℚ))⌋).toNat < samples.length ∧
        (resample samples rate)[i]? =
          samples[((⌊(i : ℚ) / (16000 / (rate : ℚ))⌋).toNat)]?) := by
  constructor
  · intro h; rw [resample, if_pos h]
  · intro hne
    have hrq : (0 : ℚ) < (rate : ℚ) := by exact_mod_cast hrate
    have hrpos : (0 : ℚ) < 16000 / (rate : ℚ) := by positivity
    have hkey : ∀ i, i < (⌊(samples.length : ℚ) * (16000 / (rate : ℚ))⌋).toNat →
        (⌊(i : ℚ) / (16000 / (rate : ℚ))⌋).toNat < samples.length := by
      intro i hi
      have hfl0 : (0 : ℚ) ≤ (samples.length : ℚ) * (16000 / (rate : ℚ)) := by positivity
      have hfl : 0 ≤ ⌊(samples.length : ℚ) * (16000 / (rate : ℚ))⌋ :=
        Int.floor_nonneg.mpr hfl0
      have hiq : (i : ℚ) < (samples.length : ℚ) * (16000 / (rate : ℚ)) := by
        have h1 : (i : ℤ) < ⌊(samples.length : ℚ) * (16000 / (rate : ℚ))⌋ := by omega
        have h2 : ((i : ℤ) : ℚ) < (⌊(samples.length : ℚ) * (16000 / (rate : ℚ))⌋ : ℚ) := by
          exact_mod_cast h1
        exact lt_of_lt_of_le (by exact_mod_cast h2) (Int.floor_le _)
      have hdiv : (i : ℚ) / (16000 / (rate : ℚ)) < (samples.length : ℚ) :=
        (div_lt_iff₀ hrpos).mpr hiq
      have hflr : ⌊(i : ℚ) / (16000 / (rate : ℚ))⌋ < (samples.length : ℤ) :=
        Int.floor_lt.mpr (by exact_mod_cast hdiv)
      have hnn : 0 ≤ ⌊(i : ℚ) / (16000 / (rate : ℚ))⌋ :=
        Int.floor_nonneg.mpr (by positivity)
      omega
    have hre : resample samples rate =
        (List.range ((⌊(samples.length : ℚ) * (16000 / (rate : ℚ))⌋).toNat)).map
          (fun i : ℕ => samples.getD ((⌊(i : ℚ) / (16000 / (rate : ℚ))⌋).toNat) 0) := by
      rw [resample, if_neg hne]
      apply filterMap_eq_map_of_forall_some
      intro i hi
      have hlt := hkey i (List.mem_range.mp hi)
      rw [List.getElem?_eq_getElem hlt, List.getD_eq_getElem samples 0 hlt]
    refine ⟨by rw [hre]; simp, fun i hi => ⟨hkey i hi, ?_⟩⟩
    have hlt := hkey i hi
    rw [hre, List.getElem?_map, List.getElem?_range hi, List.getElem?_eq_getElem hlt]
    simp [List.getD_eq_getElem samples 0 hlt, List.getElem?_eq_getElem hlt]

/-- Claim C3, witness: a two-sample buffer at 16000 Hz passes through
unchanged; at 8000 Hz the ratio is 2, the output has floor(2·2) = 4
samples, and output index 2 reads source index floor(2/2) = 1. -/
theorem resample_nearest_index_witness :
    resample [(3 : ℚ), 5] 16000 = [3, 5] ∧
    (resample [(3 : ℚ), 5] 8000).length = 4 ∧
    (resample [(3 : ℚ), 5] 8000)[2]? = some 5 := by
  have h1 := (resample_nearest_index [(3 : ℚ), 5] 16000 (by norm_num)).1 rfl
  have h2 := (resample_nearest_index [(3 : ℚ), 5] 8000 (by norm_num)).2 (by norm_num)
  have hN : (⌊(([(3 : ℚ), 5] : List ℚ).length : ℚ) * (16000 / ((8000 : ℕ) : ℚ))⌋).toNat = 4 := by
    norm_num
    rfl
  refine ⟨h1, ?_, ?_⟩
  · rw [h2.1, hN]
  · have h3 := (h2.2 2 (by rw [hN]; norm_num)).2
    rw [h3]
    norm_num

/-- Claim C4. For every spectrogram the analyzer returns, the number
of magnitude frames equals the number of time points, every frame has
as many entries as there are frequency bins, and there are
window_size/2 frequency bins.  The transform is in place, so it
preserves the length of its buffer — the hfft hypothesis. -/
theorem spectrogram_shape_invariant (fft : List (ℚ × ℚ) → List (ℚ × ℚ))
    (cosq log10q : ℚ → ℚ) (normq : ℚ × ℚ → ℚ) (piq : ℚ) (audio : AudioData)
    (window_size : ℕ) (s : SpectrogramData)
    (hfft : ∀ l, (fft l).length = l.length)
    (h : compute_spectrogram fft cosq log10q normq piq audio window_size = some s) :
    s.magnitudes.length = s.time_points.length ∧
    (∀ m ∈ s.magnitudes, m.length = s.frequencies.length) ∧
    s.frequencies.length = window_size / 2 := by
  rw [compute_spectrogram] at h
  split at h
  · exact absurd h (by simp)
  · rename_i hg
    push_neg at hg
    obtain ⟨hW, hlen⟩ := hg
    injection h with h
    subst h
    refine ⟨by simp, ?_, by simp⟩
    intro m hm
    simp only [List.mem_map, List.mem_range] at hm
    obtain ⟨k, hk, rfl⟩ := hm
    have hb := frame_slice_bound audio.samples.length window_size k hlen hk
    simp only [List.length_take, List.length_map, hfft, List.length_zip, List.length_drop,
      hann_window, List.length_range]
    omega

/-- Claim C4, witness: the four-zero buffer with window size 4 and
the identity transform yields zero frames, zero time points and two
frequency bins. -/
theorem spectrogram_shape_invariant_witness :
    exampleSpectrogram4.magnitudes.length = exampleSpectrogram4.time_points.length ∧
    (∀ m ∈ exampleSpectrogram4.magnitudes, m.length = exampleSpectrogram4.frequencies.length) ∧
    exampleSpectrogram4.frequencies.length = 4 / 2 :=
  spectrogram_shape_invariant id (fun q => q) (fun q => q) (fun c => c.1) 0 exampleAudio 4
    exampleSpectrogram4 (fun l => rfl)
    (by norm_num [compute_spectrogram, exampleAudio, exampleSpectrogram4, List.range_succ])


/-- Claim C6. For every spectrogram the analyzer returns, there are
window_size/2 frequency bins, bin j holds j·sample_rate/window_size,
and — whenever the buffer's rate is positive, which the data model
guarantees for any decodable stream — the bins are strictly
increasing. -/
theorem frequency_bins_linear (fft : List (ℚ × ℚ) → List (ℚ × ℚ))
    (cosq log10q : ℚ → ℚ) (normq : ℚ × ℚ → ℚ) (piq : ℚ) (audio : AudioData)
    (window_size : ℕ) (s : SpectrogramData)
    (h : compute_spectrogram fft cosq log10q normq piq audio window_size = some s)
    (hrate : 0 < audio.sample_rate) :
    s.frequencies.length = window_size / 2 ∧
    (∀ j, j < window_size / 2 →
      s.frequencies[j]? =
        some ((j : ℚ) * (audio.sample_rate : ℚ) / (window_size : ℚ))) ∧
    s.frequencies.Pairwise (· < ·) := by
  rw [compute_spectrogram] at h
  split at h
  · exact absurd h (by simp)
  · rename_i hg
    push_neg at hg
    obtain ⟨hW, hlen⟩ := hg
    injection h with h
    subst h
    have hWpos : 0 < window_size := by omega
    have hrq : (0 : ℚ) < (audio.sample_rate : ℚ) := by exact_mod_cast hrate
    have hWq : (0 : ℚ) < (window_size : ℚ) := by exact_mod_cast hWpos
    refine ⟨by simp, fun j hj => ?_, ?_⟩
    · simp [List.getElem?_map, List.getElem?_range hj]
    · rw [List.pairwise_map]
      refine (List.pairwise_lt_range _).imp ?_
      intro a b hab
      have habq : (a : ℚ) < (b : ℚ) := by exact_mod_cast hab
      gcongr

/-- Claim C6, witness: the four-zero buffer at rate 8 with window
size 4 yields the two bins 0 and 2 = 1·8/4, strictly increasing. -/
theorem frequency_bins_linear_witness :
    exampleSpectrogram4.frequencies.length = 4 / 2 ∧
    (∀ j : ℕ, j < 4 / 2 →
      exampleSpectrogram4.frequencies[j]? =
        some ((j : ℚ) * (exampleAudio.sample_rate : ℚ) / ((4 : ℕ) : ℚ))) ∧
    exampleSpectrogram4.frequencies.Pairwise (· < ·) :=
  frequency_bins_linear id (fun q => q) (fun q => q) (fun c => c.1) 0 exampleAudio 4
    exampleSpectrogram4
    (by norm_num [compute_spectrogram, exampleAudio, exampleSpectrogram4, List.range_succ])
    (by norm_num [exampleAudio])

/-- Claim C9, counterexample. The claim says a window size that is
not a power of two makes compute_spectrogram fail fast with an
InvalidWindowSize error; but the code contains no window-size check
at all (no such error type exists), and with window size 6 on a
twelve-sample buffer it proceeds with the transform and returns a
spectrogram. -/
theorem non_pow2_window_accepted :
    (compute_spectrogram id (fun q => q) (fun q => q) (fun c => c.1) 0
        { samples := [0, 0, 0, 0, 0, 0, 0, 0, 0, 0, 0, 0], sample_rate := 16 } 6).isSome =
      true := by
  rw [compute_spectrogram, if_neg (by norm_num)]
  rfl

/-- Claim C9 as amended: compute_spectrogram performs no window-size
validation; for any window size — power of two or not — of at least 2
and any buffer at least as long as the window, it proceeds with the
transform and returns a spectrogram rather than any error. -/
theorem spectrogram_no_window_validation (fft : List (ℚ × ℚ) → List (ℚ × ℚ))
    (cosq log10q : ℚ → ℚ) (normq : ℚ × ℚ → ℚ) (piq : ℚ) (audio : AudioData)
    (window_size : ℕ) (hpow : ∀ k : ℕ, window_size ≠ 2 ^ k)
    (h2 : 2 ≤ window_size) (hlen : window_size ≤ audio.samples.length) :
    (compute_spectrogram fft cosq log10q normq piq audio window_size).isSome = true := by
  rw [compute_spectrogram, if_neg (by omega)]
  rfl

/-- Claim C9 (amended) witness: window size 10 is not a power of two,
and on a buffer of twenty zeros the analyzer still returns a
spectrogram. -/
theorem spectrogram_no_window_validation_witness :
    (compute_spectrogram id (fun q => q) (fun q => q) (fun c => c.1) 0
        { samples := List.replicate 20 0, sample_rate := 16 } 10).isSome = true := by
  apply spectrogram_no_window_validation
  · intro k hk
    have h3 : k < 4 := by
      by_contra hc
      have h4 : 2 ^ 4 ≤ 2 ^ k := Nat.pow_le_pow_right (by norm_num) (le_of_not_lt hc)
      omega
    interval_cases k <;> omega
  · norm_num
  · simp
